import Mathlib

/-!
Verification of `scrub_invisible.py`.

The program strips a fixed set of invisible Unicode code points from a text
file and writes the result to a fresh, non-colliding file.  We embed the
program shallowly:

* a Python `str` is a sequence of Unicode scalar values, modelled as
  `List Char` (and Lean `String` for the path/IO layer);
* the module-level set `INVISIBLE_CHARS` (lines 26-45) becomes a list of
  characters with decidable membership;
* the two comprehensions of `scrub_invisible` (lines 84-85) become
  `List.filter` / `List.countP`;
* the filesystem is a pair of oracles (`os.path.isfile`, `os.path.exists`)
  plus a read function, and each observable effect of a run is recorded in
  an event trace;
* the `while True` probing loop of `get_unique_filename` (lines 61-66) is
  given both a denotation via `Nat.find` (the least free suffix) and an
  operational fuel-indexed model, proved equivalent.
-/

/-- The module-level constant `INVISIBLE_CHARS` (scrub_invisible.py lines
26-45): the set of known invisible Unicode characters, one list entry per
code point, in source order. -/
def INVISIBLE_CHARS : List Char :=
  [ Char.ofNat 0x00A0  -- No-break space.
  , Char.ofNat 0x2007  -- Figure space.
  , Char.ofNat 0x202F  -- Narrow no-break space.
  , Char.ofNat 0x200B  -- Zero-width space.
  , Char.ofNat 0x200C  -- Zero-width non-joiner.
  , Char.ofNat 0x200D  -- Zero-width joiner.
  , Char.ofNat 0x2060  -- Word joiner.
  , Char.ofNat 0xFEFF  -- BOM / no-break space.
  , Char.ofNat 0x180E  -- Mongolian vowel separator (deprecated).
  , Char.ofNat 0x2061  -- Function application.
  , Char.ofNat 0x2062  -- Invisible times.
  , Char.ofNat 0x2063  -- Invisible separator.
  , Char.ofNat 0x2064  -- Invisible plus.
  , Char.ofNat 0x034F  -- Combining grapheme joiner.
  , Char.ofNat 0x115F  -- Hangul choseong filler.
  , Char.ofNat 0x1160  -- Hangul jungseong filler.
  , Char.ofNat 0x3164  -- Hangul filler.
  , Char.ofNat 0xFFA0  -- Halfwidth Hangul filler.
  ]

/-- Line 84: `cleaned = ''.join(c for c in content if c not in INVISIBLE_CHARS)`.
The characters of `content` that are not in the denylist, in original order. -/
def cleanedOf (content : List Char) : List Char :=
  content.filter (fun c => decide (c ∉ INVISIBLE_CHARS))

/-- Line 85: `removed_count = sum(1 for c in content if c in INVISIBLE_CHARS)`.
The number of occurrences of denylisted characters in `content`. -/
def removedCountOf (content : List Char) : Nat :=
  content.countP (fun c => decide (c ∈ INVISIBLE_CHARS))

/-- C1: on every input, the filter's output is the in-order subsequence of
exactly the non-denylisted characters (stated as: it is a sublist, contains
no denylisted character, and keeps every occurrence of every non-denylisted
character), the removed count is the total number of occurrences of
denylisted characters, the empty string maps to the empty output with count
0, and an input made only of denylisted characters maps to the empty output
with count equal to its length. -/
theorem filter_functional_correctness (s : List Char) :
    (cleanedOf s).Sublist s ∧
    (∀ c ∈ cleanedOf s, c ∉ INVISIBLE_CHARS) ∧
    (∀ c, c ∉ INVISIBLE_CHARS → (cleanedOf s).count c = s.count c) ∧
    removedCountOf s = (s.filter (fun c => decide (c ∈ INVISIBLE_CHARS))).length ∧
    (cleanedOf ([] : List Char) = [] ∧ removedCountOf ([] : List Char) = 0) ∧
    ((∀ c ∈ s, c ∈ INVISIBLE_CHARS) → cleanedOf s = [] ∧ removedCountOf s = s.length) := by
  refine ⟨List.filter_sublist s, ?_, ?_, ?_, ⟨rfl, rfl⟩, ?_⟩
  · intro c hc
    have := List.of_mem_filter hc
    simpa using this
  · intro c hc
    unfold cleanedOf
    rw [List.count_filter]
    simp [hc]
  · simp [removedCountOf, List.countP_eq_length_filter]
  · intro hall
    constructor
    · unfold cleanedOf
      rw [List.filter_eq_nil_iff]
      intro c hc
      simpa using hall c hc
    · unfold removedCountOf
      rw [List.countP_eq_length_filter, List.filter_length_eq_length.mpr]
      intro c hc
      simpa using hall c hc

/-- C2: the length of the filter's output plus the removed count equals the
length of the input, even though the two are computed by two independent
passes over the input. -/
theorem filter_length_conservation (s : List Char) :
    (cleanedOf s).length + removedCountOf s = s.length := by
  unfold cleanedOf removedCountOf
  induction s with
  | nil => rfl
  | cons c t ih =>
    by_cases h : c ∈ INVISIBLE_CHARS <;>
      simp [List.filter_cons, List.countP_cons, h, ← ih] <;> omega

/-- C6: the filter is the identity (with count 0) on denylist-free inputs,
and is idempotent: re-filtering an already filtered output changes nothing
and removes nothing. -/
theorem filter_identity_and_idempotent (s : List Char) :
    ((∀ c ∈ s, c ∉ INVISIBLE_CHARS) →
      cleanedOf s = s ∧ removedCountOf s = 0) ∧
    cleanedOf (cleanedOf s) = cleanedOf s ∧
    removedCountOf (cleanedOf s) = 0 := by
  have hclean : ∀ t : List Char, (∀ c ∈ t, c ∉ INVISIBLE_CHARS) →
      cleanedOf t = t ∧ removedCountOf t = 0 := by
    intro t ht
    constructor
    · unfold cleanedOf
      rw [List.filter_eq_self]
      intro c hc
      simpa using ht c hc
    · unfold removedCountOf
      rw [List.countP_eq_zero]
      intro c hc
      simpa using ht c hc
  refine ⟨hclean s, ?_⟩
  have hmem : ∀ c ∈ cleanedOf s, c ∉ INVISIBLE_CHARS := by
    intro c hc
    have := List.of_mem_filter hc
    simpa using this
  exact hclean (cleanedOf s) hmem

/-- C9: the denylist is exactly 18 distinct code points, it contains
U+180E, U+200B and U+2007, and the filter removes every occurrence of each
denylisted code point and of no other: a character survives the filter at
every occurrence iff it is outside the denylist. -/
theorem denylist_exact_18 :
    INVISIBLE_CHARS.length = 18 ∧
    INVISIBLE_CHARS.Nodup ∧
    (INVISIBLE_CHARS.map Char.toNat =
      [0xA0, 0x2007, 0x202F, 0x200B, 0x200C, 0x200D, 0x2060, 0xFEFF,
       0x180E, 0x2061, 0x2062, 0x2063, 0x2064, 0x34F, 0x115F, 0x1160,
       0x3164, 0xFFA0]) ∧
    (Char.ofNat 0x180E ∈ INVISIBLE_CHARS ∧ Char.ofNat 0x200B ∈ INVISIBLE_CHARS ∧
      Char.ofNat 0x2007 ∈ INVISIBLE_CHARS) ∧
    (∀ s : List Char, ∀ c ∈ INVISIBLE_CHARS, (cleanedOf s).count c = 0) ∧
    (∀ s : List Char, ∀ c, c ∉ INVISIBLE_CHARS →
      (cleanedOf s).count c = s.count c) := by
  refine ⟨by decide, by decide, by decide, ⟨by decide, by decide, by decide⟩, ?_, ?_⟩
  · intro s c hc
    rw [List.count_eq_zero]
    intro hmem
    have := List.of_mem_filter hmem
    simp at this
    exact this hc
  · intro s c hc
    unfold cleanedOf
    rw [List.count_filter]
    simp [hc]

/-- The candidate path probed at step `n` by `get_unique_filename`
(lines 58-66): step 0 probes `base_path` itself, step `n+1` probes
`f"{base_path}.{n+1}"`. -/
def cand (base : String) : Nat → String
  | 0 => base
  | Nat.succ n => base ++ "." ++ toString (n + 1)

/-- Denotation of `get_unique_filename(base_path)` (lines 47-66) over an
`os.path.exists` oracle `ex`: the function returns `base_path` if it has no
filesystem entry, and otherwise the first of `base.1`, `base.2`, ... with no
entry.  Both cases are the candidate at the least index whose probe is free,
so the least such index (`Nat.find`, total under the hypothesis that some
candidate is free) is the returned path's index. -/
def get_unique_filename (ex : String → Bool) (base : String)
    (h : ∃ n, ex (cand base n) = false) : String :=
  cand base (Nat.find h)

/-- Operational model of the `while True` loop of lines 61-66, with the
initial line-58 check folded in as step `counter = 0`: probe `cand base
counter`; if free return it, else advance the counter.  `fuel` bounds the
number of iterations so the function is total; the termination claim shows
some finite fuel suffices whenever a free candidate exists. -/
def probeLoop (ex : String → Bool) (base : String) :
    Nat → Nat → Option String
  | _, 0 => none
  | counter, Nat.succ fuel =>
      if ex (cand base counter) = false then some (cand base counter)
      else probeLoop ex base (counter + 1) fuel

lemma probeLoop_succeeds (ex : String → Bool) (base : String)
    (counter N : Nat) (hle : counter ≤ N)
    (hfree : ex (cand base N) = false)
    (hbusy : ∀ m, counter ≤ m → m < N → ex (cand base m) = true) :
    ∀ fuel, N + 1 - counter ≤ fuel →
      probeLoop ex base counter fuel = some (cand base N) := by
  have key : ∀ k counter, N - counter ≤ k → counter ≤ N →
      (∀ m, counter ≤ m → m < N → ex (cand base m) = true) →
      ∀ fuel, N + 1 - counter ≤ fuel →
        probeLoop ex base counter fuel = some (cand base N) := by
    intro k
    induction k with
    | zero =>
      intro counter hk hle _ fuel hfuel
      have hcN : counter = N := by omega
      subst hcN
      obtain ⟨fuel2, rfl⟩ : ∃ f2, fuel = f2 + 1 := ⟨fuel - 1, by omega⟩
      simp [probeLoop, hfree]
    | succ k ih =>
      intro counter hk hle hbusy fuel hfuel
      obtain ⟨fuel2, rfl⟩ : ∃ f2, fuel = f2 + 1 := ⟨fuel - 1, by omega⟩
      by_cases hc : counter = N
      · subst hc
        simp [probeLoop, hfree]
      · have hlt : counter < N := by omega
        have hcb : ex (cand base counter) = true := hbusy counter le_rfl hlt
        simp only [probeLoop, hcb]
        simp only [Bool.true_eq_false, if_false]
        exact ih (counter + 1) (by omega) (by omega)
          (fun m hm hmN => hbusy m (by omega) hmN) fuel2 (by omega)
  intro fuel hfuel
  exact key (N - counter) counter le_rfl hle hbusy fuel hfuel

/-- Case analysis of the resolver result, shared by several theorems:
the base path when free, else the candidate at the least positive free
suffix. -/
lemma get_unique_filename_cases (ex : String → Bool) (base : String)
    (h : ∃ n, ex (cand base n) = false) :
    (ex base = false → get_unique_filename ex base h = base) ∧
    (ex base = true → ∃ N, 0 < N ∧ ex (cand base N) = false ∧
      (∀ m, 0 < m → m < N → ex (cand base m) = true) ∧
      get_unique_filename ex base h = base ++ "." ++ toString N) := by
  constructor
  · intro hfreebase
    have h0 : Nat.find h = 0 := by
      rw [Nat.find_eq_zero]
      exact hfreebase
    simp [get_unique_filename, h0, cand]
  · intro hbusybase
    refine ⟨Nat.find h, ?_, Nat.find_spec h, ?_, ?_⟩
    · rcases Nat.eq_zero_or_pos (Nat.find h) with h0 | h0
      · have := Nat.find_spec h
        rw [h0] at this
        simp [cand] at this
        rw [this] at hbusybase
        exact absurd hbusybase (by simp)
      · exact h0
    · intro m _ hmlt
      have := Nat.find_min h hmlt
      simpa using this
    · obtain ⟨k, hk⟩ : ∃ k, Nat.find h = k + 1 := by
        rcases Nat.eq_zero_or_pos (Nat.find h) with h0 | h0
        · have := Nat.find_spec h
          rw [h0] at this
          simp [cand] at this
          rw [this] at hbusybase
          exact absurd hbusybase (by simp)
        · exact ⟨Nat.find h - 1, by omega⟩
      rw [get_unique_filename, hk]
      rfl

/-- C3: the Unique Path Resolver returns the base path unchanged when no
filesystem entry exists at it; otherwise it returns `base.N` for the
smallest positive integer `N` whose candidate has no entry (all earlier
positive candidates having entries). -/
theorem unique_path_resolver_correct (ex : String → Bool) (base : String)
    (h : ∃ n, ex (cand base n) = false) :
    (ex base = false → get_unique_filename ex base h = base) ∧
    (ex base = true → ∃ N, 0 < N ∧ ex (cand base N) = false ∧
      (∀ m, 0 < m → m < N → ex (cand base m) = true) ∧
      get_unique_filename ex base h = base ++ "." ++ toString N) :=
  get_unique_filename_cases ex base h

/-- A two-entry filesystem for concrete tests: exactly `P` and `P.1` exist. -/
def fsPP1 : String → Bool := fun s => s == "P" || s == "P.1"

/-- Witness for C3: on a filesystem where exactly `P` and `P.1` exist, the
resolver probes past both and lands on the free candidate `P.2`. -/
theorem unique_path_resolver_correct_witness :
    fsPP1 "P" = true ∧
    (∃ N, 0 < N ∧ fsPP1 (cand "P" N) = false ∧
      (∀ m, 0 < m → m < N → fsPP1 (cand "P" m) = true) ∧
      get_unique_filename fsPP1 "P" ⟨2, by decide⟩ = "P" ++ "." ++ toString N) :=
  ⟨by decide, (unique_path_resolver_correct fsPP1 "P" ⟨2, by decide⟩).2 (by decide)⟩

/-- C7: whenever some candidate in `base, base.1, base.2, ...` has no
filesystem entry, the probing loop terminates: there is a finite fuel bound
past which the operational loop returns a result, stably, and that result
is the resolver's path. -/
theorem probing_loop_terminates (ex : String → Bool) (base : String)
    (h : ∃ n, ex (cand base n) = false) :
    ∃ fuel r, probeLoop ex base 0 fuel = some r ∧
      (∀ fuel2, fuel ≤ fuel2 → probeLoop ex base 0 fuel2 = some r) ∧
      r = get_unique_filename ex base h := by
  refine ⟨Nat.find h + 1, cand base (Nat.find h), ?_, ?_, rfl⟩
  · exact probeLoop_succeeds ex base 0 (Nat.find h) (Nat.zero_le _)
      (Nat.find_spec h)
      (fun m _ hmlt => by simpa using Nat.find_min h hmlt)
      (Nat.find h + 1) (by omega)
  · intro fuel2 hfuel2
    exact probeLoop_succeeds ex base 0 (Nat.find h) (Nat.zero_le _)
      (Nat.find_spec h)
      (fun m _ hmlt => by simpa using Nat.find_min h hmlt)
      fuel2 (by omega)

/-- Witness for C7: with `P` and `P.1` taken, the loop halts at `P.2`. -/
theorem probing_loop_terminates_witness :
    ∃ fuel r, probeLoop fsPP1 "P" 0 fuel = some r ∧
      (∀ fuel2, fuel ≤ fuel2 → probeLoop fsPP1 "P" 0 fuel2 = some r) ∧
      r = get_unique_filename fsPP1 "P" ⟨2, by decide⟩ :=
  probing_loop_terminates fsPP1 "P" ⟨2, by decide⟩

/-- ANSI escape code `WHITE` (line 18). -/
def WHITE : String := "\x1B[97m"

/-- ANSI escape code `CYAN` (line 19). -/
def CYAN : String := "\x1B[96m"

/-- ANSI escape code `MAGENTA` (line 20). -/
def MAGENTA : String := "\x1B[95m"

/-- ANSI escape code `VIOLET` (line 21). -/
def VIOLET : String := "\x1B[38;5;135m"

/-- ANSI escape code `RED` (line 22). -/
def RED : String := "\x1B[91m"

/-- ANSI escape code `RESET` (line 23). -/
def RESET : String := "\x1B[0m"

/-- The filesystem as the program observes it: the `os.path.isfile` oracle,
the `os.path.exists` oracle, and the text content read from a path. -/
structure FS where
  isfile : String → Bool
  path_exists : String → Bool
  read : String → String

/-- One observable filesystem or console effect of a run. -/
inductive IOEvent where
  | isfileCheck (path : String)
  | readFile (path : String)
  | existsCheck (path : String)
  | writeFile (path : String) (content : String)
  | printLine (text : String)
  deriving DecidableEq

/-- The `os.path.exists` probes issued by `get_unique_filename`: line 58
probes the base (index 0), then the loop probes indices 1, 2, ... up to and
including the first free one. -/
def resolverProbes (ex : String → Bool) (base : String)
    (h : ∃ n, ex (cand base n) = false) : List IOEvent :=
  (List.range (Nat.find h + 1)).map (fun i => IOEvent.existsCheck (cand base i))

/-- The error message printed on line 78 for a missing input file. -/
def errorMsg (file_path : String) : String :=
  RED ++ "Error: '" ++ CYAN ++ file_path ++ RED ++ "' does not exist." ++ RESET

/-- The event trace of `scrub_invisible(file_path)` (lines 68-99) on
filesystem `fs`.  Line 77 checks `os.path.isfile`; on failure line 78
prints the error and line 79 returns.  Otherwise lines 81-82 read the file,
lines 84-85 filter it, line 89 appends the literal `.si` suffix, line 90
resolves a unique name (probing the filesystem), lines 92-93 write the
cleaned text there, and lines 96-99 print the summary.  The hypothesis `h`
(some candidate output path is free) makes the resolver total. -/
def scrub_invisible (fs : FS) (file_path : String)
    (h : ∃ n, fs.path_exists (cand (file_path ++ ".si") n) = false) :
    List IOEvent :=
  if fs.isfile file_path = false then
    [IOEvent.isfileCheck file_path, IOEvent.printLine (errorMsg file_path)]
  else
    let content := fs.read file_path
    let cleaned : String := ⟨cleanedOf content.data⟩
    let removed_count := removedCountOf content.data
    let base_output := file_path ++ ".si"
    let new_filename := get_unique_filename fs.path_exists base_output h
    [IOEvent.isfileCheck file_path, IOEvent.readFile file_path]
      ++ resolverProbes fs.path_exists base_output h
      ++ [IOEvent.writeFile new_filename cleaned,
          IOEvent.printLine (RED ++ "Original code block:" ++ RESET ++ "\n"
            ++ WHITE ++ content ++ RESET),
          IOEvent.printLine (VIOLET ++ "Cleaned code block:" ++ RESET ++ "\n"
            ++ WHITE ++ cleaned ++ RESET),
          IOEvent.printLine (WHITE ++ "A total of " ++ MAGENTA
            ++ toString removed_count ++ WHITE
            ++ " invisible characters were removed." ++ RESET),
          IOEvent.printLine (WHITE ++ "New file saved as: " ++ CYAN
            ++ new_filename ++ WHITE ++ "." ++ RESET)]

/-- The usage message printed on line 103. -/
def usageMsg : String := "Usage: python scrub_invisible.py <file_path>"

/-- The `__main__` guard (lines 101-105): `argv` models `sys.argv`, whose
first element is the program name, so exactly one command-line argument
means `argv.length = 2`.  Any other length prints the usage message; else
the tool runs on `sys.argv[1]`. -/
def main_entry (fs : FS) (argv : List String)
    (h : ∃ n, fs.path_exists (cand (argv.getD 1 "" ++ ".si") n) = false) :
    List IOEvent :=
  if argv.length ≠ 2 then [IOEvent.printLine usageMsg]
  else scrub_invisible fs (argv.getD 1 "") h

lemma scrub_writeFile_mem (fs : FS) (p : String)
    (h : ∃ n, fs.path_exists (cand (p ++ ".si") n) = false) (q c : String) :
    IOEvent.writeFile q c ∈ scrub_invisible fs p h ↔
      (fs.isfile p = true ∧
        q = get_unique_filename fs.path_exists (p ++ ".si") h ∧
        c = String.mk (cleanedOf (fs.read p).data)) := by
  by_cases hf : fs.isfile p = false
  · constructor
    · intro hmem
      rw [scrub_invisible, if_pos hf] at hmem
      simp at hmem
    · rintro ⟨h1, -, -⟩
      rw [hf] at h1
      exact absurd h1 (by simp)
  · have hf2 : fs.isfile p = true := by
      revert hf
      cases fs.isfile p <;> simp
    constructor
    · intro hmem
      rw [scrub_invisible, if_neg (by rw [hf2]; simp)] at hmem
      simp only [resolverProbes, List.mem_append, List.mem_map,
        List.mem_cons, List.mem_range, List.not_mem_nil, or_false] at hmem
      rcases hmem with ((h1 | h1) | ⟨i, hi, h1⟩) | h1 | h1 | h1 | h1 | h1 <;>
        first
          | (obtain ⟨rfl, rfl⟩ := IOEvent.writeFile.inj h1
             exact ⟨hf2, rfl, rfl⟩)
          | (exact absurd h1 (by simp))
    · rintro ⟨-, rfl, rfl⟩
      rw [scrub_invisible, if_neg (by rw [hf2]; simp)]
      simp only [List.mem_append, List.mem_cons, List.not_mem_nil, or_false]
      right
      left
      trivial

lemma cand_si_suffix (p : String) (n : Nat) :
    ∃ suffix : String, cand (p ++ ".si") n = p ++ suffix ∧ 0 < suffix.length := by
  cases n with
  | zero => exact ⟨".si", rfl, by decide⟩
  | succ k =>
    refine ⟨".si." ++ toString (k + 1), ?_, ?_⟩
    · show ((p ++ ".si") ++ ".") ++ toString (k + 1)
        = p ++ (".si." ++ toString (k + 1))
      have hdot : (p ++ ".si") ++ "." = p ++ ".si." := by
        rw [String.append_assoc]
        have h1 : (".si" ++ "." : String) = ".si." := by decide
        rw [h1]
      rw [hdot, String.append_assoc]
    · rw [String.length_append]
      have h4 : (".si." : String).length = 4 := by decide
      omega

/-- C4: on a successful run on input path `p`, exactly one file is written;
its path is `p ++ ".si"` (the literal suffix concatenated onto the full
input path) when that path is free, and otherwise `p ++ ".si." ++ N` for
the smallest positive integer `N` whose candidate has no filesystem
entry. -/
theorem output_path_correct (fs : FS) (p : String)
    (h : ∃ n, fs.path_exists (cand (p ++ ".si") n) = false)
    (hfile : fs.isfile p = true) :
    ∃ q content,
      IOEvent.writeFile q content ∈ scrub_invisible fs p h ∧
      (∀ q2 c2, IOEvent.writeFile q2 c2 ∈ scrub_invisible fs p h →
        q2 = q ∧ c2 = content) ∧
      (fs.path_exists (p ++ ".si") = false → q = p ++ ".si") ∧
      (fs.path_exists (p ++ ".si") = true →
        ∃ N, 0 < N ∧ fs.path_exists (cand (p ++ ".si") N) = false ∧
          (∀ m, 0 < m → m < N → fs.path_exists (cand (p ++ ".si") m) = true) ∧
          q = p ++ ".si." ++ toString N) := by
  refine ⟨get_unique_filename fs.path_exists (p ++ ".si") h,
    String.mk (cleanedOf (fs.read p).data), ?_, ?_, ?_, ?_⟩
  · exact (scrub_writeFile_mem fs p h _ _).mpr ⟨hfile, rfl, rfl⟩
  · intro q2 c2 hmem
    obtain ⟨-, hq, hc⟩ := (scrub_writeFile_mem fs p h q2 c2).mp hmem
    exact ⟨hq, hc⟩
  · exact (get_unique_filename_cases fs.path_exists (p ++ ".si") h).1
  · intro hbusy
    obtain ⟨N, hN0, hNfree, hNmin, hres⟩ :=
      (get_unique_filename_cases fs.path_exists (p ++ ".si") h).2 hbusy
    refine ⟨N, hN0, hNfree, hNmin, ?_⟩
    rw [hres]
    have hdot : (p ++ ".si") ++ "." = p ++ ".si." := by
      rw [String.append_assoc]
      have h1 : (".si" ++ "." : String) = ".si." := by decide
      rw [h1]
    rw [hdot]

/-- An empty filesystem for concrete tests: nothing exists. -/
def fsEmpty : FS :=
  { isfile := fun _ => false, path_exists := fun _ => false, read := fun _ => "" }

/-- A filesystem for concrete tests with the single regular file `in.txt`
containing `hello`; no other entry exists. -/
def fsOneFile : FS :=
  { isfile := fun s => s == "in.txt", path_exists := fun _ => false,
    read := fun _ => "hello" }

/-- Witness for C4: on a filesystem with only `in.txt`, the run writes one
file, at the free base path `in.txt` + `.si`. -/
theorem output_path_correct_witness :
    fsOneFile.isfile "in.txt" = true ∧
    (∃ q content,
      IOEvent.writeFile q content ∈ scrub_invisible fsOneFile "in.txt" ⟨0, rfl⟩ ∧
      (∀ q2 c2,
        IOEvent.writeFile q2 c2 ∈ scrub_invisible fsOneFile "in.txt" ⟨0, rfl⟩ →
        q2 = q ∧ c2 = content) ∧
      (fsOneFile.path_exists ("in.txt" ++ ".si") = false → q = "in.txt" ++ ".si") ∧
      (fsOneFile.path_exists ("in.txt" ++ ".si") = true →
        ∃ N, 0 < N ∧ fsOneFile.path_exists (cand ("in.txt" ++ ".si") N) = false ∧
          (∀ m, 0 < m → m < N →
            fsOneFile.path_exists (cand ("in.txt" ++ ".si") m) = true) ∧
          q = "in.txt" ++ ".si." ++ toString N)) :=
  ⟨by decide, output_path_correct fsOneFile "in.txt" ⟨0, rfl⟩ (by decide)⟩

/-- C5: when the input path is not a regular file, the run's trace is
exactly the existence check followed by one descriptive error line naming
the path; in particular no file at all is written, and the run still
produces a full (terminating) trace. -/
theorem invalid_input_clean_abort (fs : FS) (p : String)
    (h : ∃ n, fs.path_exists (cand (p ++ ".si") n) = false)
    (hfile : fs.isfile p = false) :
    scrub_invisible fs p h
        = [IOEvent.isfileCheck p, IOEvent.printLine (errorMsg p)] ∧
    (∀ q c, IOEvent.writeFile q c ∉ scrub_invisible fs p h) ∧
    (∃ pre post, errorMsg p = pre ++ p ++ post ∧
      0 < pre.length ∧ 0 < post.length) := by
  refine ⟨by rw [scrub_invisible, if_pos hfile], ?_, ?_⟩
  · intro q c hmem
    obtain ⟨h1, -, -⟩ := (scrub_writeFile_mem fs p h q c).mp hmem
    rw [hfile] at h1
    exact absurd h1 (by simp)
  · refine ⟨RED ++ "Error: '" ++ CYAN, RED ++ "' does not exist." ++ RESET,
      ?_, by decide, by decide⟩
    rw [errorMsg]
    simp [String.append_assoc]

/-- Witness for C5: on an empty filesystem, scrubbing `missing.txt` yields
only the check and the error line. -/
theorem invalid_input_clean_abort_witness :
    fsEmpty.isfile "missing.txt" = false ∧
    scrub_invisible fsEmpty "missing.txt" ⟨0, rfl⟩
        = [IOEvent.isfileCheck "missing.txt",
           IOEvent.printLine (errorMsg "missing.txt")] :=
  ⟨rfl, (invalid_input_clean_abort fsEmpty "missing.txt" ⟨0, rfl⟩ rfl).1⟩

/-- C8: with a number of command-line arguments other than exactly one
(`sys.argv` length other than 2, the first element being the program
name), the program prints only the usage message and performs no file I/O:
no existence check, read, probe, or write occurs in the trace. -/
theorem usage_message_no_io (fs : FS) (argv : List String)
    (h : ∃ n, fs.path_exists (cand (argv.getD 1 "" ++ ".si") n) = false)
    (hlen : argv.length ≠ 2) :
    main_entry fs argv h = [IOEvent.printLine usageMsg] ∧
    ∀ e ∈ main_entry fs argv h,
      (∀ p, e ≠ IOEvent.isfileCheck p) ∧
      (∀ p, e ≠ IOEvent.readFile p) ∧
      (∀ p, e ≠ IOEvent.existsCheck p) ∧
      (∀ p c, e ≠ IOEvent.writeFile p c) := by
  have heq : main_entry fs argv h = [IOEvent.printLine usageMsg] := by
    rw [main_entry, if_pos hlen]
  refine ⟨heq, ?_⟩
  intro e he
  rw [heq] at he
  simp only [List.mem_singleton] at he
  subst he
  exact ⟨fun p => by simp, fun p => by simp, fun p => by simp,
    fun p c => by simp⟩

/-- Witness for C8: invoked with zero command-line arguments (`sys.argv`
holding only the program name), the trace is the usage line alone. -/
theorem usage_message_no_io_witness :
    (List.length ["scrub_invisible.py"] ≠ 2) ∧
    main_entry fsEmpty ["scrub_invisible.py"] ⟨0, rfl⟩
        = [IOEvent.printLine usageMsg] :=
  ⟨by decide,
    (usage_message_no_io fsEmpty ["scrub_invisible.py"] ⟨0, rfl⟩ (by decide)).1⟩

/-- C10: every path written during any run is the resolved output path,
which extends the input path by a nonempty suffix and therefore never
equals it: the input file is never opened for writing. -/
theorem input_file_never_written (fs : FS) (p : String)
    (h : ∃ n, fs.path_exists (cand (p ++ ".si") n) = false) :
    ∀ q c, IOEvent.writeFile q c ∈ scrub_invisible fs p h →
      q = get_unique_filename fs.path_exists (p ++ ".si") h ∧
      (∃ suffix, q = p ++ suffix ∧ 0 < suffix.length) ∧
      q ≠ p := by
  intro q c hmem
  obtain ⟨-, rfl, -⟩ := (scrub_writeFile_mem fs p h q c).mp hmem
  refine ⟨rfl, ?_, ?_⟩
  · show ∃ suffix, cand (p ++ ".si") (Nat.find h) = p ++ suffix ∧ 0 < suffix.length
    exact cand_si_suffix p (Nat.find h)
  · obtain ⟨suffix, hsuf, hlen⟩ := cand_si_suffix p (Nat.find h)
    show cand (p ++ ".si") (Nat.find h) ≠ p
    rw [hsuf]
    intro hqp
    have hlens := congrArg String.length hqp
    rw [String.length_append] at hlens
    omega

/-- Witness for C10: the single write of a run on `in.txt` targets
`in.txt.si`, which extends and differs from the input path. -/
theorem input_file_never_written_witness :
    (IOEvent.writeFile "in.txt.si" "hello"
        ∈ scrub_invisible fsOneFile "in.txt" ⟨0, rfl⟩) ∧
    ("in.txt.si" : String) ≠ "in.txt" ∧
    (∃ suffix, ("in.txt.si" : String) = "in.txt" ++ suffix ∧
      0 < suffix.length) := by
  have hq : get_unique_filename fsOneFile.path_exists ("in.txt" ++ ".si")
      ⟨0, rfl⟩ = "in.txt.si" := by
    have h0 : Nat.find (⟨0, rfl⟩ :
        ∃ n, fsOneFile.path_exists (cand ("in.txt" ++ ".si") n) = false) = 0 := by
      rw [Nat.find_eq_zero]
      rfl
    rw [get_unique_filename, h0]
    decide
  have hm : IOEvent.writeFile "in.txt.si" "hello"
      ∈ scrub_invisible fsOneFile "in.txt" ⟨0, rfl⟩ :=
    (scrub_writeFile_mem fsOneFile "in.txt" ⟨0, rfl⟩ "in.txt.si" "hello").mpr
      ⟨by decide, hq.symm, by decide⟩
  obtain ⟨-, hsuf, hne⟩ :=
    input_file_never_written fsOneFile "in.txt" ⟨0, rfl⟩ "in.txt.si" "hello" hm
  exact ⟨hm, hne, hsuf⟩
